import Mathlib

/-!
Verification development for `bedrock-zcap-storage`.

Shallow embedding of the core of the repository:
* `lib/revocations.js` — revocation record store access with an in-memory
  cache (`insert`, `count`, `isRevoked` with `_cachedIsRevoked`,
  `_createCacheGetter`, `_getUncachedRevocations`);
* `lib/helpers.js` — `inspectCapabilityChain`;
* `lib/policies.js` — policy CRUD with optimistic concurrency
  (`insert`, `update`, `remove`) and its cache.

Modelling conventions, stated once here:
* The MongoDB collections are modelled as Lean lists of records; the unique
  indexes are reflected by the duplicate checks the code relies on.
* Timestamps (`Date.now()`, `Date` values) are modelled as `Int`
  milliseconds since the epoch.  `setDate(getDate() + 1)` on a `Date` adds
  exactly one calendar day; in the runtime's UTC time reckoning this is
  86400000 ms, the constant `dayMs` below.
* The `LruCache` class comes from the external package
  `@digitalbazaar/lru-memoize` (not part of this repository's sources); its
  `memoize`/`delete` behaviour is modelled from the spec's "Cache Entry"
  description: a map from a key to a resolved value (or, in the concurrency
  model at the end of the file, a pending-computation marker).  Capacity and
  max-age eviction are not modelled; no claim below depends on eviction.
* The cache key is `JSON.stringify({capabilityId, delegator})` in the
  source, which is injective on the pair of strings, so the key is modelled
  as the `CapabilitySummary` pair itself.
* Store I/O failures (timeouts, connectivity) are environmental; they are
  modelled by an explicit `dbFail`/`storeFail` oracle parameter.
* JavaScript promise scheduling in `_cachedIsRevoked` is deterministic under
  the event loop: cached entries resolve in microtasks that settle strictly
  before the shared database round trip settles.  The function is therefore
  embedded as a deterministic function of the cache contents, the store
  contents and the `dbFail` oracle.
-/

namespace ZcapStorage

/-- One-day safety margin, in milliseconds (`revocations.js` lines 80-82:
`revocationExpires.setDate(revocationExpires.getDate() + 1)`). -/
def dayMs : Int := 86400000

/-- A capability as consumed by `revocations.insert`: `capability.id` plus the
optional `capability.expires` timestamp. -/
structure Capability where
  id : String
  expires : Option Int := none
deriving DecidableEq, Repr

/-- The `meta` of a stored revocation record (`revocations.js` lines 64-83). -/
structure RevocationMeta where
  created : Int
  updated : Int
  delegator : String
  rootTarget : String
  expires : Option Int := none
deriving DecidableEq, Repr

/-- A record of the `zcap-storage-revocation` collection:
`{capability, meta}` (`revocations.js` line 85). -/
structure RevocationRecord where
  capability : Capability
  meta : RevocationMeta
deriving DecidableEq, Repr

/-- Query input for `isRevoked` (`CapabilitySummary` typedef,
`revocations.js` lines 139-145). -/
structure CapabilitySummary where
  capabilityId : String
  delegator : String
deriving DecidableEq, Repr

/-- Modelled from the spec: the revocation `LruCache` maps a cache key —
modelled as the `(capabilityId, delegator)` pair, see the header — to a
resolved boolean revocation status.  (The external `@digitalbazaar/lru-memoize`
package is not among the repository sources.) -/
def RevCache : Type := List (CapabilitySummary × Bool)

instance : DecidableEq RevCache := by
  unfold RevCache
  infer_instance

/-- Cache lookup for a key. -/
def cacheLookup (cache : RevCache) (s : CapabilitySummary) : Option Bool :=
  (cache.find? (fun e => e.1 = s)).map (·.2)

/-- `LruCache.delete(key)`: remove any entry for the key. -/
def cacheDelete (cache : RevCache) (s : CapabilitySummary) : RevCache :=
  cache.filter (fun e => ¬(e.1 = s))

/-- Store a resolved value for a key (what `memoize` leaves in the cache after
its getter resolves). -/
def cacheStore (cache : RevCache) (s : CapabilitySummary) (v : Bool) :
    RevCache :=
  (s, v) :: cacheDelete cache s

/-- The state visible to the revocation module: the
`zcap-storage-revocation` collection and the process-wide `REVOCATION_CACHE`. -/
structure RevState where
  store : List RevocationRecord
  cache : RevCache
deriving DecidableEq

/-- Whether a stored record matches one capability summary: the predicate of
`_createCacheGetter`'s `records.find` (`revocations.js` lines 234-236) and of
each `$or` disjunct of `_getUncachedRevocations` (lines 243-248). -/
def recordMatches (r : RevocationRecord) (s : CapabilitySummary) : Bool :=
  r.capability.id = s.capabilityId ∧ r.meta.delegator = s.delegator

/-- `_getUncachedRevocations` (`revocations.js` lines 240-262): a single
`find` with an `$or` of `(capability.id, meta.delegator)` pairs; returns every
stored record matching any requested summary.  (The projection only trims
fields the model does not carry.) -/
def getUncachedRevocations (store : List RevocationRecord)
    (capabilities : List CapabilitySummary) : List RevocationRecord :=
  store.filter (fun r => capabilities.any (fun s => recordMatches r s))

/-- Whether any record of `records` matches the summary `s`
(`_createCacheGetter`, `revocations.js` lines 233-236). -/
def recordsContainMatch (records : List RevocationRecord)
    (s : CapabilitySummary) : Bool :=
  records.any (fun r => recordMatches r s)

/-- Result of a revocation-module operation: a value, or a surfaced store
error (environmental failures propagate unchanged, `revocations.js` comment
lines 178-184). -/
inductive RevResult (α : Type) where
  | ok (v : α)
  | storeError
deriving DecidableEq, Repr

/-- `_cachedIsRevoked` (`revocations.js` lines 170-208), embedded as a
deterministic function; returns the caller-visible outcome, the cache left
behind, and the number of database round trips issued.

Derivation from the source:
* every summary with a cache entry resolves from the cache with no store
  access; if some cached value is `true`, `resolveRevoked(true)` fires in a
  microtask that settles before the shared database call does, so the result
  is `true` even if that call later fails;
* if any summary misses, the first miss's getter starts the single shared
  `_getUncachedRevocations` call over the full `capabilities` list
  (`dbCallState`, lines 194, 217-238) — exactly one round trip;
* on database success each missing summary resolves to whether a returned
  record matches it, and `memoize` retains that resolved value;
* on database failure every missing summary's getter throws, so
  `Promise.all` rejects: the error surfaces unless a positive was already
  resolved; a rejected `memoize` getter leaves no resolved entry behind. -/
def cachedIsRevoked (capabilities : List CapabilitySummary) (st : RevState)
    (dbFail : Bool) : RevResult Bool × RevState × Nat :=
  let anyHitTrue := capabilities.any
    (fun s => cacheLookup st.cache s = some true)
  let misses := capabilities.filter (fun s => cacheLookup st.cache s = none)
  if misses.isEmpty then
    (.ok anyHitTrue, st, 0)
  else if dbFail then
    if anyHitTrue then (.ok true, st, 1) else (.storeError, st, 1)
  else
    let records := getUncachedRevocations st.store capabilities
    let cache' := misses.foldl
      (fun c s => cacheStore c s (recordsContainMatch records s)) st.cache
    let revoked := anyHitTrue ∨ misses.any
      (fun s => recordsContainMatch records s)
    (.ok revoked, { st with cache := cache' }, 1)

/-- `isRevoked` (`revocations.js` lines 158-164) without the diagnostic
`explain` passthrough: asserts the argument is an array of objects (always
true of a typed Lean list, including the empty list — `assert.arrayOfObject`
accepts `[]`) and delegates to `_cachedIsRevoked`. -/
def isRevoked (capabilities : List CapabilitySummary) (st : RevState)
    (dbFail : Bool) : RevResult Bool × RevState × Nat :=
  cachedIsRevoked capabilities st dbFail

/-- Result of `revocations.insert`. -/
inductive InsertResult where
  | ok (record : RevocationRecord)
  | duplicate
  | storeError
deriving DecidableEq, Repr

/-- `revocations.insert` (`revocations.js` lines 58-107).

* `meta.created`/`meta.updated` are `Date.now()`;
* when `capability.expires` is set, `meta.expires` is one day later
  (lines 71-83), and the TTL index on `meta.expires` deletes the record at
  that time;
* `insertOne` fails on the `(meta.delegator, capability.id)` unique index
  when a record with that pair exists: the `DuplicateError` path rethrows
  without touching the cache; any other store failure also rethrows
  untouched;
* only after a successful durable insert is the cache entry for
  `(capability.id, delegator)` deleted (lines 90-93). -/
def insertRevocation (delegator rootTarget : String) (capability : Capability)
    (now : Int) (storeFail : Bool) (st : RevState) :
    InsertResult × RevState :=
  let meta : RevocationMeta :=
    { created := now, updated := now, delegator := delegator,
      rootTarget := rootTarget,
      expires := capability.expires.map (fun t => t + dayMs) }
  let record : RevocationRecord := { capability := capability, meta := meta }
  if storeFail then
    (.storeError, st)
  else if st.store.any (fun r =>
      r.capability.id = capability.id ∧ r.meta.delegator = delegator) then
    (.duplicate, st)
  else
    (.ok record,
     { store := record :: st.store,
       cache := cacheDelete st.cache
         ⟨capability.id, delegator⟩ })

/-- `revocations.count` (`revocations.js` lines 121-137):
`countDocuments({meta.rootTarget: rootTarget})`. -/
def countRevocations (rootTarget : String) (st : RevState) : Nat :=
  (st.store.filter (fun r => r.meta.rootTarget = rootTarget)).length

/-! ## Delegation chain inspector (`lib/helpers.js`) -/

/-- Per-link verification metadata, as read by `inspectCapabilityChain`
(`helpers.js` lines 30-36): the first entry of
`capabilityChainMeta[i].verifyResult.results` carries an optional
`purposeResult` with an optional `delegator`, whose `id` is the verified
delegator identity.  The model keeps only what the function reads: the
verified delegator id, when one was asserted. -/
structure ChainLinkMeta where
  delegator : Option String := none
deriving DecidableEq, Repr

/-- Outcome object of `inspectCapabilityChain`: `{valid, error?}`. -/
structure InspectOutcome where
  valid : Bool
  error : Option String := none
deriving DecidableEq, Repr

/-- The summary extraction loop of `inspectCapabilityChain` (`helpers.js`
lines 24-37): skip index 0 (the root), and for each later link with an
asserted delegator push `{capabilityId: capability.id, delegator:
purposeResult.delegator.id}`.  The pairing with the metadata is positional
(`capabilityChainMeta[i]`). -/
def extractSummaries (chain : List Capability) (meta : List ChainLinkMeta) :
    List CapabilitySummary :=
  ((chain.zip meta).drop 1).filterMap
    (fun p => p.2.delegator.map
      (fun d => ⟨p.1.id, d⟩))

/-- `inspectCapabilityChain` (`helpers.js` lines 8-55), without the
expiration-logging pass (lines 57-118), which only emits log events and
touches neither store nor cache nor the returned value.

* a single-element chain returns `{valid: true}` before any cache or store
  interaction (lines 18-20);
* otherwise summaries are extracted and `revocations.isRevoked` is called
  unconditionally — also with an empty extracted list (line 45);
* `revoked = true` yields `{valid: false, error: ...}`, otherwise
  `{valid: true}`; a store failure from `isRevoked` propagates.

Returns the outcome (or propagated store error), the resulting state and the
number of database round trips. -/
def inspectCapabilityChain (chain : List Capability)
    (meta : List ChainLinkMeta) (st : RevState) (dbFail : Bool) :
    RevResult InspectOutcome × RevState × Nat :=
  if chain.length = 1 then
    (.ok { valid := true }, st, 0)
  else
    match isRevoked (extractSummaries chain meta) st dbFail with
    | (.ok true, st', q) =>
      (.ok { valid := false,
             error :=
               some "One or more capabilities in the chain have been revoked."
           }, st', q)
    | (.ok false, st', q) => (.ok { valid := true }, st', q)
    | (.storeError, st', q) => (.storeError, st', q)

/-! ## Policy store (`lib/policies.js`) -/

/-- A zcap policy (`policies.js` `_assertPolicy`, lines 223-234): required
string `controller` and `delegate`, a non-negative integer `sequence`
(modelled as `Int`, with validity checked as the code does), and a `refresh`
payload that is either `false` or an object opaque to this module (modelled
as an `Option` of an opaque payload string). -/
structure Policy where
  controller : String
  delegate : String
  sequence : Int
  refresh : Option String := none
deriving DecidableEq, Repr

/-- `_assertPolicy`'s numeric check (`policies.js` lines 231-233): the
submitted `sequence` must be a non-negative integer; integrality is carried
by the `Int` type, leaving non-negativity. -/
def validPolicySequence (p : Policy) : Bool :=
  0 ≤ p.sequence

/-- A record of the `zcap-storage-policy` collection: `{meta, policy}`. -/
structure PolicyRecord where
  created : Int
  updated : Int
  policy : Policy
deriving DecidableEq, Repr

/-- Modelled from the spec: the policy `LruCache` maps the natural key
`(controller, delegate)` (the source key is `JSON.stringify({controller,
delegate})`, injective on the pair) to a memoized `get` outcome — a record,
or a cached "not found". -/
def PolicyCache : Type := List ((String × String) × Option PolicyRecord)

instance : DecidableEq PolicyCache := by
  unfold PolicyCache
  infer_instance

/-- Policy cache lookup for a natural key. -/
def policyCacheLookup (cache : PolicyCache) (key : String × String) :
    Option (Option PolicyRecord) :=
  (cache.find? (fun e => e.1 = key)).map (·.2)

/-- `POLICY_CACHE.delete(key)`. -/
def policyCacheDelete (cache : PolicyCache) (key : String × String) :
    PolicyCache :=
  cache.filter (fun e => ¬(e.1 = key))

/-- State visible to the policy module: the `zcap-storage-policy` collection
and the process-wide `POLICY_CACHE`. -/
structure PolicyState where
  store : List PolicyRecord
  cache : PolicyCache
deriving DecidableEq

/-- Error taxonomy of the policy module. -/
inductive PolicyError where
  | invalidArgument
  | badInitialSequence
  | duplicate
  | invalidState
  | notFound
  | storeError
deriving DecidableEq, Repr

/-- Whether a stored record has the given natural key
(`policy.controller`, `policy.delegate`). -/
def policyKeyMatches (r : PolicyRecord) (key : String × String) : Bool :=
  r.policy.controller = key.1 ∧ r.policy.delegate = key.2

/-- Replace the first record satisfying `p` by `f` of it (the
`findOneAndUpdate` write: one matched document is updated). -/
def updateFirst (p : PolicyRecord → Bool) (f : PolicyRecord → PolicyRecord) :
    List PolicyRecord → List PolicyRecord
  | [] => []
  | r :: rs => if p r then f r :: rs else r :: updateFirst p f rs

/-- Remove the first record satisfying `p` (the `deleteOne` write), returning
the new list and whether a record was deleted (`deletedCount === 1`). -/
def deleteFirst (p : PolicyRecord → Bool) :
    List PolicyRecord → List PolicyRecord × Bool
  | [] => ([], false)
  | r :: rs =>
    if p r then (rs, true)
    else
      let rec' := deleteFirst p rs
      (r :: rec'.1, rec'.2)

/-- `policies.insert` (`policies.js` lines 38-66).

* `_assertPolicy` rejects a negative or non-integer `sequence` before any
  I/O; then the initial `sequence` must be exactly zero;
* `insertOne` fails on the `(policy.controller, policy.delegate)` unique
  index when the natural key exists: the `DuplicateError` path rethrows with
  the cache untouched, as does any other store failure;
* on success, any cached "not found" value for the key is deleted
  (lines 50-51). -/
def insertPolicy (policy : Policy) (now : Int) (storeFail : Bool)
    (st : PolicyState) : Except PolicyError PolicyRecord × PolicyState :=
  if ¬ validPolicySequence policy then
    (.error .invalidArgument, st)
  else if policy.sequence ≠ 0 then
    (.error .badInitialSequence, st)
  else if storeFail then
    (.error .storeError, st)
  else if st.store.any (fun r =>
      policyKeyMatches r (policy.controller, policy.delegate)) then
    (.error .duplicate, st)
  else
    let record : PolicyRecord :=
      { created := now, updated := now, policy := policy }
    (.ok record,
     { store := record :: st.store,
       cache := policyCacheDelete st.cache
         (policy.controller, policy.delegate) })

/-- `policies.update` (`policies.js` lines 150-191).

* `_assertPolicy` rejects invalid input before any I/O or cache effect;
* the `findOneAndUpdate` query requires the natural key AND
  `policy.sequence === submitted.sequence - 1`; on a match it sets
  `meta.updated = Date.now()` and `policy` to the submitted policy,
  returning the updated document;
* the cache entry for the key is deleted whether or not the update matched
  (lines 173-175);
* when nothing matched (`updatedExisting === false`) — a missing record and
  a sequence mismatch are indistinguishable — an `InvalidStateError` is
  thrown (lines 177-189), never a `NotFoundError`. -/
def updatePolicy (policy : Policy) (now : Int) (st : PolicyState) :
    Except PolicyError PolicyRecord × PolicyState :=
  if ¬ validPolicySequence policy then
    (.error .invalidArgument, st)
  else
    let key := (policy.controller, policy.delegate)
    let casMatch := fun (r : PolicyRecord) =>
      policyKeyMatches r key ∧ r.policy.sequence = policy.sequence - 1
    let cache' := policyCacheDelete st.cache key
    let apply := fun (r : PolicyRecord) =>
      { r with updated := now, policy := policy }
    match st.store.find? casMatch with
    | some r =>
      (.ok (apply r),
       { store := updateFirst casMatch apply st.store, cache := cache' })
    | none => (.error .invalidState, { st with cache := cache' })

/-- `policies.remove` (`policies.js` lines 204-221).

* the `deleteOne` query is the natural key, plus `policy.sequence` when the
  optional `sequence` guard is given;
* the cache entry for the key is deleted whether or not a record was
  deleted (lines 218-219);
* resolves to whether `deletedCount === 1` — no throw on "no match". -/
def removePolicy (controller delegate : String) (sequence : Option Int)
    (st : PolicyState) : Bool × PolicyState :=
  let query := fun (r : PolicyRecord) =>
    policyKeyMatches r (controller, delegate) &&
      (match sequence with
       | some n => decide (r.policy.sequence = n)
       | none => true)
  let del := deleteFirst query st.store
  (del.2,
   { store := del.1,
     cache := policyCacheDelete st.cache (controller, delegate) })

/-! ## Event-loop model of concurrent `isRevoked` calls

`_cachedIsRevoked` runs on a single-threaded event loop.  When a call starts,
its `capabilities.map` callbacks run synchronously up to their first `await`:
for each summary, `LruCache.memoize` either finds an entry — a resolved value
or the still-pending promise of an earlier caller — or synchronously stores
this call's pending promise and invokes the getter of `_createCacheGetter`,
whose synchronous prefix starts the single shared
`_getUncachedRevocations` database call for this invocation's `dbCallState`
(`revocations.js` lines 194-198, 220-226).  Everything the coalescing claim
is about happens in this synchronous start phase, before any I/O settles; the
model below embeds exactly that phase.  The pending-entry behaviour of
`memoize` is modelled from the spec ("a resolved value or a
pending-computation marker"), as the `@digitalbazaar/lru-memoize` package is
not among the repository sources. -/

/-- A cache entry during the start phase: a resolved boolean, or the pending
promise of the shared database call numbered `batch`. -/
inductive ConcEntry where
  | resolved (v : Bool)
  | pending (batch : Nat)
deriving DecidableEq, Repr

/-- The revocation cache as seen by the start phase. -/
def ConcCache : Type := List (CapabilitySummary × ConcEntry)

instance : DecidableEq ConcCache := by
  unfold ConcCache
  infer_instance

/-- Cache lookup in the start-phase model. -/
def concLookup (cache : ConcCache) (s : CapabilitySummary) :
    Option ConcEntry :=
  (cache.find? (fun e => e.1 = s)).map (·.2)

/-- Shared state of the start-phase model: the cache, a counter naming the
next `dbCallState`, and the log of store queries issued so far, each recorded
as the list of summaries its `$or` query requests. -/
structure ConcState where
  cache : ConcCache
  nextBatch : Nat
  queryLog : List (List CapabilitySummary)
deriving DecidableEq

/-- Synchronous start phase of one `_cachedIsRevoked({capabilities})` call:

* each summary is looked up in order; a hit (resolved or pending) reuses the
  entry and triggers nothing; a miss stores this call's pending entry;
* the first miss runs the getter, which finds `dbCallState.promise` unset and
  issues the shared `_getUncachedRevocations` call over this invocation's
  full `capabilities` list — so at most one query is logged per call, and
  none when every summary is already present. -/
def startCall (capabilities : List CapabilitySummary) (st : ConcState) :
    ConcState :=
  let cache' := capabilities.foldl
    (fun c s =>
      match concLookup c s with
      | some _ => c
      | none => (s, ConcEntry.pending st.nextBatch) :: c) st.cache
  if capabilities.any (fun s => concLookup st.cache s = none) then
    { cache := cache', nextBatch := st.nextBatch + 1,
      queryLog := st.queryLog ++ [capabilities] }
  else
    { st with cache := cache' }

/-- N concurrent `isRevoked` calls interleaved by the event loop: their start
phases run to completion in arrival order before any database result settles
(every store round trip is a suspension point and the loop is
single-threaded). -/
def startCalls (calls : List (List CapabilitySummary)) (st : ConcState) :
    ConcState :=
  calls.foldl (fun acc capabilities => startCall capabilities acc) st

/-! ## Theorems -/

lemma recordMatches_iff (r : RevocationRecord) (s : CapabilitySummary) :
    recordMatches r s = true ↔
      r.capability.id = s.capabilityId ∧ r.meta.delegator = s.delegator := by
  simp [recordMatches]

lemma recordsContainMatch_getUncached (store : List RevocationRecord)
    (caps : List CapabilitySummary) (s : CapabilitySummary) (hs : s ∈ caps) :
    recordsContainMatch (getUncachedRevocations store caps) s = true ↔
      ∃ r ∈ store,
        r.capability.id = s.capabilityId ∧ r.meta.delegator = s.delegator := by
  rw [recordsContainMatch, List.any_eq_true]
  constructor
  · rintro ⟨r, hr, hm⟩
    rw [getUncachedRevocations, List.mem_filter] at hr
    exact ⟨r, hr.1, (recordMatches_iff r s).mp hm⟩
  · rintro ⟨r, hr, hm⟩
    refine ⟨r, ?_, (recordMatches_iff r s).mpr hm⟩
    rw [getUncachedRevocations, List.mem_filter]
    exact ⟨hr, List.any_eq_true.mpr ⟨s, hs, (recordMatches_iff r s).mpr hm⟩⟩

/-- C1: on a cold (empty) cache, `isRevoked` resolves `true` exactly when the
revocation store holds a record whose `capability.id` equals some requested
summary's `capabilityId` and whose `meta.delegator` equals that same
summary's `delegator`; a record matching the id under a different delegator
does not count.  Moreover the concrete scenario holds: after inserting
`{capabilityId: "cap-1", delegator: "d-1", rootTarget: "r-1"}`, checking
`("cap-1", "d-1")` gives `true`, checking `("cap-1", "d-2")` gives `false`,
and `count({rootTarget: "r-1"})` gives 1. -/
theorem isRevoked_true_iff_matching_pair (caps : List CapabilitySummary)
    (store : List RevocationRecord) :
    ((isRevoked caps ⟨store, []⟩ false).1 = .ok true ↔
      ∃ s ∈ caps, ∃ r ∈ store,
        r.capability.id = s.capabilityId ∧ r.meta.delegator = s.delegator) ∧
    (∀ now : Int, ∃ rec st1,
      insertRevocation "d-1" "r-1" ⟨"cap-1", none⟩ now false ⟨[], []⟩ =
        (.ok rec, st1) ∧
      (isRevoked [⟨"cap-1", "d-1"⟩] st1 false).1 = .ok true ∧
      (isRevoked [⟨"cap-1", "d-2"⟩] st1 false).1 = .ok false ∧
      countRevocations "r-1" st1 = 1) := by
  constructor
  · rw [isRevoked, cachedIsRevoked]
    simp only [show ∀ s, cacheLookup (⟨store, []⟩ : RevState).cache s = none
      from fun s => rfl]
    cases caps with
    | nil => simp
    | cons c cs =>
      simp only [decide_True, List.filter_true, List.isEmpty_cons,
        Bool.false_eq_true, if_false, decide_eq_true_eq]
      simp
      constructor
      · rintro (h | ⟨a, ha, h⟩)
        · exact Or.inl
            ((recordsContainMatch_getUncached store (c :: cs) c
              (by simp)).mp h)
        · exact Or.inr ⟨a, ha,
            (recordsContainMatch_getUncached store (c :: cs) a
              (by simp [ha])).mp h⟩
      · rintro (h | ⟨a, ha, h⟩)
        · exact Or.inl
            ((recordsContainMatch_getUncached store (c :: cs) c
              (by simp)).mpr h)
        · exact Or.inr ⟨a, ha,
            (recordsContainMatch_getUncached store (c :: cs) a
              (by simp [ha])).mpr h⟩
  · intro now
    refine ⟨_, _, rfl, ?_, ?_, ?_⟩
    · simp [isRevoked, cachedIsRevoked, cacheLookup, cacheDelete, cacheStore,
        getUncachedRevocations, recordsContainMatch, recordMatches,
        insertRevocation]
    · simp [isRevoked, cachedIsRevoked, cacheLookup, cacheDelete, cacheStore,
        getUncachedRevocations, recordsContainMatch, recordMatches,
        insertRevocation]
    · simp [countRevocations, insertRevocation]

lemma extractSummaries_eq_nil (chain : List Capability)
    (meta : List ChainLinkMeta) (h : ∀ m ∈ meta, m.delegator = none) :
    extractSummaries chain meta = [] := by
  rw [extractSummaries, List.filterMap_eq_nil_iff]
  intro p hp
  have hm : p.2 ∈ meta :=
    (List.of_mem_zip (List.mem_of_mem_drop hp)).2
  rw [h p.2 hm]
  rfl

/-- C9: `isRevoked` on an empty capabilities array resolves `false` with no
store query and no state change; consequently `inspectCapabilityChain` on any
chain whose metadata asserts no delegator — where the code still calls
`isRevoked` unconditionally with the empty extracted set — returns
`{valid: true}` with zero store accesses. -/
theorem isRevoked_empty_no_store_access (st : RevState) (dbFail : Bool)
    (chain : List Capability) (meta : List ChainLinkMeta)
    (h : ∀ m ∈ meta, m.delegator = none) :
    isRevoked [] st dbFail = (.ok false, st, 0) ∧
    inspectCapabilityChain chain meta st dbFail = (.ok ⟨true, none⟩, st, 0) := by
  refine ⟨rfl, ?_⟩
  rw [inspectCapabilityChain]
  by_cases hc : chain.length = 1
  · rw [if_pos hc]
  · rw [if_neg hc, extractSummaries_eq_nil chain meta h]
    rfl

/-- Witness for C9 at a two-link chain with no asserted delegators. -/
theorem isRevoked_empty_no_store_access_witness :
    isRevoked [] (⟨[], []⟩ : RevState) false = (.ok false, ⟨[], []⟩, 0) ∧
    inspectCapabilityChain [⟨"root", none⟩, ⟨"child", none⟩] [⟨none⟩, ⟨none⟩]
      ⟨[], []⟩ false = (.ok ⟨true, none⟩, ⟨[], []⟩, 0) :=
  isRevoked_empty_no_store_access ⟨[], []⟩ false
    [⟨"root", none⟩, ⟨"child", none⟩] [⟨none⟩, ⟨none⟩] (by decide)

/-- C8: when `capability.expires` is supplied, a successful insert stores
`meta.expires` — the timestamp at which the TTL index deletes the record — no
earlier than one day after the capability's expiration. -/
theorem insertRevocation_expires_margin (delegator rootTarget : String)
    (c : Capability) (tExp now : Int) (storeFail : Bool) (st st' : RevState)
    (rec : RevocationRecord)
    (hexp : c.expires = some tExp)
    (hok : insertRevocation delegator rootTarget c now storeFail st =
      (.ok rec, st')) :
    ∃ e, rec.meta.expires = some e ∧ tExp + dayMs ≤ e := by
  rw [insertRevocation] at hok
  split at hok
  · simp at hok
  · split at hok
    · simp at hok
    · simp only [Prod.mk.injEq, InsertResult.ok.injEq] at hok
      obtain ⟨h1, h2⟩ := hok
      subst h1
      exact ⟨tExp + dayMs, by simp [hexp], le_refl _⟩

/-- Witness for C8 at a concrete expiring capability. -/
theorem insertRevocation_expires_margin_witness :
    ∃ e, (⟨⟨"c", some 1000⟩, ⟨5, 5, "d", "r", some (1000 + dayMs)⟩⟩ :
      RevocationRecord).meta.expires = some e ∧ 1000 + dayMs ≤ e :=
  insertRevocation_expires_margin "d" "r" ⟨"c", some 1000⟩ 1000 5 false
    ⟨[], []⟩ ⟨[⟨⟨"c", some 1000⟩, ⟨5, 5, "d", "r", some (1000 + dayMs)⟩⟩], []⟩
    ⟨⟨"c", some 1000⟩, ⟨5, 5, "d", "r", some (1000 + dayMs)⟩⟩ rfl (by decide)

/-- C10: a failed revocation insert — duplicate `(capabilityId, delegator)`
pair or any store error — leaves the whole state, in particular the
revocation cache, unchanged: invalidation happens only after a durable
success. -/
theorem insertRevocation_failure_leaves_cache (delegator rootTarget : String)
    (c : Capability) (now : Int) (storeFail : Bool) (st : RevState)
    (h : (insertRevocation delegator rootTarget c now storeFail st).1 =
        .duplicate ∨
      (insertRevocation delegator rootTarget c now storeFail st).1 =
        .storeError) :
    (insertRevocation delegator rootTarget c now storeFail st).2 = st ∧
    (insertRevocation delegator rootTarget c now storeFail st).2.cache =
      st.cache := by
  by_cases hf : storeFail = true
  · rw [insertRevocation, if_pos hf]
    exact ⟨rfl, rfl⟩
  · by_cases hd : (st.store.any fun r =>
        decide (r.capability.id = c.id ∧ r.meta.delegator = delegator)) = true
    · rw [insertRevocation, if_neg hf, if_pos hd]
      exact ⟨rfl, rfl⟩
    · rw [insertRevocation, if_neg hf, if_neg hd] at h
      simp at h

/-- Witness for C10 at a duplicate insert against a non-empty cache. -/
theorem insertRevocation_failure_leaves_cache_witness :
    (insertRevocation "d" "r2" ⟨"c", none⟩ 9 false
      ⟨[⟨⟨"c", none⟩, ⟨0, 0, "d", "r", none⟩⟩],
        [(⟨"x", "y"⟩, true)]⟩).2 =
      ⟨[⟨⟨"c", none⟩, ⟨0, 0, "d", "r", none⟩⟩], [(⟨"x", "y"⟩, true)]⟩ ∧
    (insertRevocation "d" "r2" ⟨"c", none⟩ 9 false
      ⟨[⟨⟨"c", none⟩, ⟨0, 0, "d", "r", none⟩⟩],
        [(⟨"x", "y"⟩, true)]⟩).2.cache = [(⟨"x", "y"⟩, true)] :=
  insertRevocation_failure_leaves_cache "d" "r2" ⟨"c", none⟩ 9 false
    ⟨[⟨⟨"c", none⟩, ⟨0, 0, "d", "r", none⟩⟩], [(⟨"x", "y"⟩, true)]⟩
    (Or.inl (by decide))

lemma cacheLookup_delete (c : RevCache) (s : CapabilitySummary) :
    cacheLookup (cacheDelete c s) s = none := by
  rw [cacheLookup, Option.map_eq_none', List.find?_eq_none]
  intro e he
  rw [cacheDelete, List.mem_filter] at he
  simpa using he.2

/-- C6: after `isRevoked([s])` resolved `false`, a successful insert of a
matching revocation record deletes the cached entry for the pair, so an
`isRevoked([s])` issued after the insert completes resolves `true` — with no
need for any cache age bound to lapse. -/
theorem insertRevocation_invalidates_cache (s : CapabilitySummary)
    (c : Capability) (rootTarget : String) (now : Int) (st st1 st2 : RevState)
    (q1 : Nat) (rec : RevocationRecord)
    (hid : c.id = s.capabilityId)
    (h1 : isRevoked [s] st false = (.ok false, st1, q1))
    (h2 : insertRevocation s.delegator rootTarget c now false st1 =
      (.ok rec, st2)) :
    (isRevoked [s] st2 false).1 = .ok true := by
  rw [insertRevocation] at h2
  simp only [Bool.false_eq_true, if_false] at h2
  split at h2
  · simp at h2
  · simp only [Prod.mk.injEq, InsertResult.ok.injEq] at h2
    obtain ⟨hrec, hst⟩ := h2
    subst hst
    rw [hid]
    simp [isRevoked, cachedIsRevoked, cacheLookup_delete,
      getUncachedRevocations, recordsContainMatch, recordMatches, hid]

/-- Witness for C6 on a concrete check-insert-check sequence. -/
theorem insertRevocation_invalidates_cache_witness :
    (isRevoked [⟨"cap-1", "d-1"⟩]
      ⟨[⟨⟨"cap-1", none⟩, ⟨0, 0, "d-1", "r-1", none⟩⟩], []⟩ false).1 =
      .ok true :=
  insertRevocation_invalidates_cache ⟨"cap-1", "d-1"⟩ ⟨"cap-1", none⟩ "r-1" 0
    ⟨[], []⟩ ⟨[], [(⟨"cap-1", "d-1"⟩, false)]⟩
    ⟨[⟨⟨"cap-1", none⟩, ⟨0, 0, "d-1", "r-1", none⟩⟩], []⟩ 1
    ⟨⟨"cap-1", none⟩, ⟨0, 0, "d-1", "r-1", none⟩⟩ rfl (by decide) (by decide)

/-- C5: with the shared store query failing, a caller whose batch contains a
miss sees the failure exactly when no cached positive had already surfaced;
if some summary's cached value is `true`, the positive result has already
resolved the call and the later failure is swallowed — the call still
resolves `true`. -/
theorem isRevoked_store_failure_propagation (caps : List CapabilitySummary)
    (st : RevState)
    (hmiss : ∃ s ∈ caps, cacheLookup st.cache s = none) :
    ((¬ ∃ s ∈ caps, cacheLookup st.cache s = some true) →
      (isRevoked caps st true).1 = .storeError) ∧
    ((∃ s ∈ caps, cacheLookup st.cache s = some true) →
      (isRevoked caps st true).1 = .ok true) := by
  rw [isRevoked, cachedIsRevoked]
  have hm : (caps.filter fun s =>
      decide (cacheLookup st.cache s = none)).isEmpty = false := by
    obtain ⟨s, hs, h⟩ := hmiss
    rw [List.isEmpty_eq_false]
    exact List.ne_nil_of_mem (List.mem_filter.mpr ⟨hs, by simp [h]⟩)
  simp only [hm, Bool.false_eq_true, if_false, if_true]
  constructor
  · intro hneg
    have ha : (caps.any fun s =>
        decide (cacheLookup st.cache s = some true)) = false := by
      rw [← Bool.not_eq_true, List.any_eq_true]
      simpa using hneg
    simp [ha]
  · intro hpos
    have ha : (caps.any fun s =>
        decide (cacheLookup st.cache s = some true)) = true := by
      rw [List.any_eq_true]
      obtain ⟨s, hs, h⟩ := hpos
      exact ⟨s, hs, by simp [h]⟩
    simp [ha]

/-- Witness for C5: a failing query on a cold single-summary batch surfaces
the error; with a cached positive alongside, the call resolves `true`. -/
theorem isRevoked_store_failure_propagation_witness :
    (isRevoked [⟨"cap-1", "d-1"⟩] ⟨[], []⟩ true).1 = .storeError ∧
    (isRevoked [⟨"cap-1", "d-1"⟩, ⟨"cap-2", "d-2"⟩]
      ⟨[], [(⟨"cap-2", "d-2"⟩, true)]⟩ true).1 = .ok true :=
  ⟨(isRevoked_store_failure_propagation [⟨"cap-1", "d-1"⟩] ⟨[], []⟩
      ⟨⟨"cap-1", "d-1"⟩, by decide, rfl⟩).1 (by decide),
   (isRevoked_store_failure_propagation
      [⟨"cap-1", "d-1"⟩, ⟨"cap-2", "d-2"⟩] ⟨[], [(⟨"cap-2", "d-2"⟩, true)]⟩
      ⟨⟨"cap-1", "d-1"⟩, by decide, by decide⟩).2
     ⟨⟨"cap-2", "d-2"⟩, by decide, by decide⟩⟩

lemma mem_extractSummaries (chain : List Capability) (meta : List ChainLinkMeta)
    (s : CapabilitySummary) :
    s ∈ extractSummaries chain meta ↔
      ∃ (i : ℕ) (h1 : i < chain.length) (h2 : i < meta.length), 1 ≤ i ∧
        (chain.get ⟨i, h1⟩).id = s.capabilityId ∧
        (meta.get ⟨i, h2⟩).delegator = some s.delegator := by
  rw [extractSummaries, List.mem_filterMap]
  constructor
  · rintro ⟨p, hp, hf⟩
    rw [List.mem_iff_getElem] at hp
    obtain ⟨j, hj, hpj⟩ := hp
    have hjz : 1 + j < (chain.zip meta).length := by
      have hd := hj
      simp only [List.length_drop] at hd
      omega
    have h1 : 1 + j < chain.length := by
      rw [List.length_zip] at hjz
      omega
    have h2 : 1 + j < meta.length := by
      rw [List.length_zip] at hjz
      omega
    rw [List.getElem_drop, List.getElem_zip] at hpj
    subst hpj
    simp only at hf
    obtain ⟨d, hd, hsd⟩ := Option.map_eq_some'.mp hf
    refine ⟨1 + j, h1, h2, by omega, ?_, ?_⟩
    · rw [List.get_eq_getElem]
      rw [← hsd]
    · rw [List.get_eq_getElem, hd, ← hsd]
  · rintro ⟨i, h1, h2, hi1, hid, hdel⟩
    have hiz : i < (chain.zip meta).length := by
      rw [List.length_zip]
      omega
    have hj : i - 1 < ((chain.zip meta).drop 1).length := by
      simp only [List.length_drop]
      omega
    refine ⟨(chain.zip meta)[i], ?_, ?_⟩
    · rw [List.mem_iff_getElem]
      refine ⟨i - 1, hj, ?_⟩
      rw [List.getElem_drop]
      congr 1
      omega
    · rw [List.getElem_zip]
      simp only
      rw [List.get_eq_getElem] at hid hdel
      rw [hdel, Option.map_some', hid]

/-- C2: `inspectCapabilityChain` on a root-only chain returns `{valid: true}`
with no store or cache access; the extracted summaries are exactly the
`{capabilityId, delegator}` pairs of non-root links whose metadata asserts a
delegator; and for longer chains the outcome is `{valid: false}` with the
descriptive error exactly when `isRevoked` over the extracted summaries
resolves `true`, `{valid: true}` exactly when it resolves `false`. -/
theorem inspectCapabilityChain_root_and_revocation (chain : List Capability)
    (meta : List ChainLinkMeta) (st : RevState) (dbFail : Bool) :
    (chain.length = 1 →
      inspectCapabilityChain chain meta st dbFail = (.ok ⟨true, none⟩, st, 0)) ∧
    (∀ s, s ∈ extractSummaries chain meta ↔
      ∃ (i : ℕ) (h1 : i < chain.length) (h2 : i < meta.length), 1 ≤ i ∧
        (chain.get ⟨i, h1⟩).id = s.capabilityId ∧
        (meta.get ⟨i, h2⟩).delegator = some s.delegator) ∧
    (chain.length ≠ 1 →
      (((inspectCapabilityChain chain meta st dbFail).1 =
          .ok ⟨false,
            some "One or more capabilities in the chain have been revoked."⟩) ↔
        (isRevoked (extractSummaries chain meta) st dbFail).1 = .ok true) ∧
      (((inspectCapabilityChain chain meta st dbFail).1 = .ok ⟨true, none⟩) ↔
        (isRevoked (extractSummaries chain meta) st dbFail).1 = .ok false)) := by
  refine ⟨?_, fun s => mem_extractSummaries chain meta s, ?_⟩
  · intro h
    rw [inspectCapabilityChain, if_pos h]
  · intro hne
    rcases hres : isRevoked (extractSummaries chain meta) st dbFail with
      ⟨r, st2, q⟩
    rw [inspectCapabilityChain, if_neg hne, hres]
    cases r with
    | ok b => cases b <;> simp [hres]
    | storeError => simp [hres]

/-- Witness for C2 at a root-only chain. -/
theorem inspectCapabilityChain_root_and_revocation_witness :
    inspectCapabilityChain [⟨"root", none⟩] [⟨none⟩] ⟨[], []⟩ false =
      (.ok ⟨true, none⟩, ⟨[], []⟩, 0) :=
  (inspectCapabilityChain_root_and_revocation [⟨"root", none⟩] [⟨none⟩]
    ⟨[], []⟩ false).1 rfl

lemma mem_updateFirst (p : PolicyRecord → Bool)
    (f : PolicyRecord → PolicyRecord) (l : List PolicyRecord)
    (r : PolicyRecord) (h : l.find? p = some r) :
    f r ∈ updateFirst p f l := by
  induction l with
  | nil => simp [List.find?] at h
  | cons a as ih =>
    by_cases hpa : p a = true
    · rw [List.find?_cons_of_pos as hpa, Option.some.injEq] at h
      subst h
      rw [updateFirst, if_pos hpa]
      exact List.mem_cons_self _ _
    · rw [List.find?_cons_of_neg as hpa] at h
      rw [updateFirst, if_neg hpa]
      exact List.mem_cons_of_mem a (ih h)

/-- C3: `updatePolicy` succeeds exactly when a stored record with the same
`controller` and `delegate` has `sequence = policy.sequence - 1`; on success
the stored record carries the submitted policy (with its incremented
sequence) and `meta.updated := now`; on any mismatch — including a wholly
absent natural key — the error is `InvalidStateError`, never
`NotFoundError`. -/
theorem updatePolicy_compare_and_set (policy : Policy) (now : Int)
    (st : PolicyState) (hv : 0 ≤ policy.sequence) :
    ((∃ rec, (updatePolicy policy now st).1 = .ok rec) ↔
      ∃ r ∈ st.store, r.policy.controller = policy.controller ∧
        r.policy.delegate = policy.delegate ∧
        r.policy.sequence = policy.sequence - 1) ∧
    (∀ rec, (updatePolicy policy now st).1 = .ok rec →
      rec.policy = policy ∧ rec.updated = now ∧
      rec ∈ (updatePolicy policy now st).2.store) ∧
    ((¬ ∃ r ∈ st.store, r.policy.controller = policy.controller ∧
        r.policy.delegate = policy.delegate ∧
        r.policy.sequence = policy.sequence - 1) →
      (updatePolicy policy now st).1 = .error .invalidState) := by
  have hval : validPolicySequence policy = true := by
    simp [validPolicySequence, hv]
  simp only [updatePolicy, hval, not_true, if_neg, ite_false]
  split
  next r heq =>
    have hfr := List.find?_some heq
    simp only [decide_eq_true_eq, policyKeyMatches] at hfr
    refine ⟨?_, ?_, ?_⟩
    · constructor
      · exact fun _ => ⟨r, List.mem_of_find?_eq_some heq,
          hfr.1.1, hfr.1.2, hfr.2⟩
      · exact fun _ => ⟨_, rfl⟩
    · intro rec h
      simp only [Except.ok.injEq] at h
      subst h
      exact ⟨rfl, rfl, mem_updateFirst _ _ st.store r heq⟩
    · intro hno
      exact absurd ⟨r, List.mem_of_find?_eq_some heq,
        hfr.1.1, hfr.1.2, hfr.2⟩ hno
  next heq =>
    have hall := List.find?_eq_none.mp heq
    refine ⟨?_, ?_, ?_⟩
    · constructor
      · rintro ⟨rec, h⟩
        simp at h
      · rintro ⟨r, hr, hc, hd, hs⟩
        exact absurd (by simp [policyKeyMatches, hc, hd, hs]) (hall r hr)
    · intro rec h
      simp at h
    · intro _
      rfl

/-- Witness for C3: an update against an empty store fails with
`InvalidStateError`, not `NotFoundError`. -/
theorem updatePolicy_compare_and_set_witness :
    (updatePolicy ⟨"c", "d", 2, none⟩ 7 ⟨[], []⟩).1 =
      .error .invalidState :=
  (updatePolicy_compare_and_set ⟨"c", "d", 2, none⟩ 7 ⟨[], []⟩
    (by decide)).2.2 (by decide)

lemma policyCacheLookup_delete (c : PolicyCache) (k : String × String) :
    policyCacheLookup (policyCacheDelete c k) k = none := by
  rw [policyCacheLookup, Option.map_eq_none', List.find?_eq_none]
  intro e he
  rw [policyCacheDelete, List.mem_filter] at he
  simpa using he.2

/-- C7: every policy store mutation leaves no cache entry for the mutated
natural key: `update` deletes the entry whether or not the compare-and-set
matched, `remove` deletes it whether or not a record was deleted, and a
successful `insert` deletes any cached "not found" entry for the key. -/
theorem policy_mutations_invalidate_cache (policy : Policy) (now : Int)
    (st st2 st3 : PolicyState) (controller delegate : String)
    (seqGuard : Option Int) (storeFail : Bool)
    (hv : 0 ≤ policy.sequence) :
    policyCacheLookup (updatePolicy policy now st).2.cache
      (policy.controller, policy.delegate) = none ∧
    policyCacheLookup (removePolicy controller delegate seqGuard st2).2.cache
      (controller, delegate) = none ∧
    (∀ rec, (insertPolicy policy now storeFail st3).1 = .ok rec →
      policyCacheLookup (insertPolicy policy now storeFail st3).2.cache
        (policy.controller, policy.delegate) = none) := by
  have hval : validPolicySequence policy = true := by
    simp [validPolicySequence, hv]
  refine ⟨?_, ?_, ?_⟩
  · simp only [updatePolicy, hval, not_true, if_neg, ite_false]
    split
    · exact policyCacheLookup_delete _ _
    · exact policyCacheLookup_delete _ _
  · simp only [removePolicy]
    exact policyCacheLookup_delete _ _
  · intro rec h
    simp only [insertPolicy, hval, not_true, if_neg, ite_false] at h ⊢
    split at h
    · simp at h
    · split at h
      · simp at h
      · split at h
        · simp at h
        · split
          · simp_all
          · exact policyCacheLookup_delete _ _

/-- Witness for C7: update, remove and insert against concrete states leave
no cache entry for the key. -/
theorem policy_mutations_invalidate_cache_witness :
    policyCacheLookup (updatePolicy ⟨"c", "d", 1, none⟩ 7
      ⟨[], [(("c", "d"), none)]⟩).2.cache ("c", "d") = none ∧
    policyCacheLookup (removePolicy "c" "d" none
      ⟨[], [(("c", "d"), none)]⟩).2.cache ("c", "d") = none :=
  ⟨(policy_mutations_invalidate_cache ⟨"c", "d", 1, none⟩ 7
      ⟨[], [(("c", "d"), none)]⟩ ⟨[], [(("c", "d"), none)]⟩ ⟨[], []⟩
      "c" "d" none false (by decide)).1,
   (policy_mutations_invalidate_cache ⟨"c", "d", 1, none⟩ 7
      ⟨[], [(("c", "d"), none)]⟩ ⟨[], [(("c", "d"), none)]⟩ ⟨[], []⟩
      "c" "d" none false (by decide)).2.1⟩

lemma foldl_pending_hits (caps : List CapabilitySummary) (cache : ConcCache)
    (b : Nat) (h : ∀ s ∈ caps, concLookup cache s ≠ none) :
    caps.foldl (fun c s =>
      match concLookup c s with
      | some _ => c
      | none => (s, ConcEntry.pending b) :: c) cache = cache := by
  induction caps with
  | nil => rfl
  | cons x xs ih =>
    rw [List.foldl_cons]
    rcases hx : concLookup cache x with _ | v
    · exact absurd hx (h x (List.mem_cons_self x xs))
    · exact ih (fun s hs => h s (List.mem_cons_of_mem x hs))

lemma startCall_single_hit (s : CapabilitySummary) (st : ConcState)
    (h : concLookup st.cache s ≠ none) : startCall [s] st = st := by
  rw [startCall]
  rw [if_neg (by simp [h])]
  rcases hx : concLookup st.cache s with _ | v
  · exact absurd hx h
  · simp only [List.foldl_cons, List.foldl_nil, hx]

lemma startCalls_replicate_fixed (s : CapabilitySummary) (k : Nat)
    (st : ConcState) (h : concLookup st.cache s ≠ none) :
    startCalls (List.replicate k [s]) st = st := by
  induction k with
  | zero => rfl
  | succ m ih =>
    rw [List.replicate_succ, startCalls, List.foldl_cons,
      startCall_single_hit s st h]
    exact ih

/-- C4: a batch with at least one cache miss issues exactly one store query,
whose `$or` request covers every missed summary of the batch; and N ≥ 1
concurrent `isRevoked` calls all missing on the same summary issue exactly
one store query in total — later callers coalesce onto the first caller's
pending entry. -/
theorem concurrent_isRevoked_single_store_query
    (caps : List CapabilitySummary) (st : ConcState) (s : CapabilitySummary)
    (n : Nat)
    (hmiss : ∃ x ∈ caps, concLookup st.cache x = none)
    (hs : concLookup st.cache s = none) (hn : 1 ≤ n) :
    (∃ req, (startCall caps st).queryLog = st.queryLog ++ [req] ∧
      ∀ x ∈ caps, concLookup st.cache x = none → x ∈ req) ∧
    (startCalls (List.replicate n [s]) st).queryLog.length =
      st.queryLog.length + 1 := by
  constructor
  · rw [startCall, if_pos]
    · exact ⟨caps, rfl, fun x hx _ => hx⟩
    · obtain ⟨x, hx, hxn⟩ := hmiss
      rw [List.any_eq_true]
      exact ⟨x, hx, by simp [hxn]⟩
  · obtain ⟨m, rfl⟩ : ∃ m, n = m + 1 := ⟨n - 1, by omega⟩
    rw [List.replicate_succ, startCalls, List.foldl_cons]
    have hone : startCall [s] st =
        ⟨(s, ConcEntry.pending st.nextBatch) :: st.cache, st.nextBatch + 1,
          st.queryLog ++ [[s]]⟩ := by
      rw [startCall, if_pos (by simp [hs])]
      simp only [List.foldl_cons, List.foldl_nil, hs]
    rw [hone]
    rw [show (List.foldl (fun acc capabilities => startCall capabilities acc)
        (⟨(s, ConcEntry.pending st.nextBatch) :: st.cache, st.nextBatch + 1,
          st.queryLog ++ [[s]]⟩ : ConcState) (List.replicate m [s])) =
        startCalls (List.replicate m [s]) _ from rfl]
    rw [startCalls_replicate_fixed s m _ (by simp [concLookup, List.find?])]
    simp

/-- Witness for C4: three concurrent calls missing on the same summary issue
exactly one store query from a cold cache. -/
theorem concurrent_isRevoked_single_store_query_witness :
    (∃ req, (startCall [⟨"cap-1", "d-1"⟩] ⟨[], 0, []⟩).queryLog = [req] ∧
      ∀ x ∈ [(⟨"cap-1", "d-1"⟩ : CapabilitySummary)],
        concLookup ([] : ConcCache) x = none → x ∈ req) ∧
    (startCalls (List.replicate 3 [⟨"cap-1", "d-1"⟩])
      ⟨[], 0, []⟩).queryLog.length = 1 :=
  concurrent_isRevoked_single_store_query [⟨"cap-1", "d-1"⟩] ⟨[], 0, []⟩
    ⟨"cap-1", "d-1"⟩ 3 ⟨⟨"cap-1", "d-1"⟩, by decide, rfl⟩ rfl (by decide)

end ZcapStorage
